import Mathlib

/-!
Shallow embedding of the firebase-mcp request-handling core: the error
taxonomy and response envelope (src/utils/error-handler.ts), the in-memory
fixed-window rate limiter (src/utils/firebase-client.ts), the security
gate and Firestore service checks (src/services/firebase-service.ts), the
input validators (src/utils/validation.ts), and the tool handler pipelines
(src/handlers/firestore-handlers.ts, src/tools/storage/index.ts).

JavaScript `Date.now()` timestamps are modelled as `Nat` milliseconds, the
`Map<string, RequestRecord>` as an insertion-ordered association list, and
JavaScript values reaching the validators as an explicit `JsVal` type with
an `undef` constructor.  JSON numbers are modelled as integers (JavaScript
prints integral doubles in plain decimal, which is the shape produced and
consumed here).
-/

namespace FirebaseMcp

/-! ### JavaScript string helpers -/

/-- `p.isPrefixOf l` on raw character lists, written out so every use
reduces by `rfl`. -/
def listPrefix : List Char → List Char → Bool
  | [], _ => true
  | _ :: _, [] => false
  | a :: p, b :: l => a == b && listPrefix p l

/-- `s.includes(pat)` from JavaScript: `pat` occurs contiguously in `s`
(the empty pattern always matches). -/
def listHasSub (pat : List Char) : List Char → Bool
  | [] => listPrefix pat []
  | c :: t => listPrefix pat (c :: t) || listHasSub pat t

/-- `String.prototype.includes`. -/
def jsIncludes (s pat : String) : Bool := listHasSub pat.toList s.toList

/-! ### Error taxonomy (src/utils/error-handler.ts, `ErrorType`) -/

/-- The `ErrorType` enum: eleven members, verbatim from the source. -/
inductive ErrorType where
  | VALIDATION | PERMISSION | NOT_FOUND | NETWORK | RATE_LIMIT
  | INVALID_ARGUMENT | ALREADY_EXISTS | INTERNAL | AUTHORIZATION
  | FIREBASE | INVALID_PARAMS
deriving DecidableEq, Repr

/-- The string value each enum member carries at runtime. -/
def ErrorType.value : ErrorType → String
  | .VALIDATION => "validation_error"
  | .PERMISSION => "permission_denied"
  | .NOT_FOUND => "not_found"
  | .NETWORK => "network_error"
  | .RATE_LIMIT => "rate_limit"
  | .INVALID_ARGUMENT => "invalid_argument"
  | .ALREADY_EXISTS => "already_exists"
  | .INTERNAL => "internal_error"
  | .AUTHORIZATION => "authorization_error"
  | .FIREBASE => "firebase_error"
  | .INVALID_PARAMS => "INVALID_PARAMS"

/-- The six-value taxonomy named by the specification (section 7): the
claim universe against which the code's envelope kinds are compared. -/
def specTaxonomy : List ErrorType :=
  [.VALIDATION, .AUTHORIZATION, .NOT_FOUND, .RATE_LIMIT, .ALREADY_EXISTS, .INTERNAL]

/-- A thrown JavaScript value as `createErrorResponse` can receive it:
a bare string, a plain `Error` with a message, or a `FirebaseMcpError`
carrying an `ErrorType`. -/
inductive JsError where
  | plainStr (s : String)
  | jsErr (msg : String)
  | mcpErr (t : ErrorType) (msg : String)
deriving DecidableEq, Repr

/-- One `{type, text}` entry of a response's `content` array. -/
structure ContentItem where
  type : String
  text : String
deriving DecidableEq, Repr

/-- The response envelope: `{content, isError, errorType?}`. -/
structure ToolResponse where
  content : List ContentItem
  isError : Bool
  errorType : Option ErrorType
deriving DecidableEq, Repr

/-- `createErrorResponse(error, context?)` from src/utils/error-handler.ts:
a `FirebaseMcpError` keeps its type and message; a plain `Error` is
classified by message substrings (permission, then not found, then already
exists); anything else (including a bare string) falls through to
`INTERNAL` with the stock message.  The context, when present, prefixes
the message. -/
def createErrorResponse (error : JsError) (context : Option String := none) : ToolResponse :=
  let td : ErrorType × String :=
    match error with
    | .mcpErr t msg => (t, msg)
    | .jsErr msg =>
        if jsIncludes msg "permission" then (.PERMISSION, msg)
        else if jsIncludes msg "not found" then (.NOT_FOUND, msg)
        else if jsIncludes msg "already exists" then (.ALREADY_EXISTS, msg)
        else (.INTERNAL, msg)
    | .plainStr _ => (.INTERNAL, "An unexpected error occurred")
  let errorMessage :=
    match context with
    | some c => c ++ ": " ++ td.2
    | none => td.2
  { content := [{ type := "text", text := errorMessage }],
    isError := true,
    errorType := some td.1 }

/-! ### JSON values and the serialization used by `createSuccessResponse`

`JSON.stringify(data)` with no spacing argument, as the success envelope
calls it.  Numbers are integers (see the header note); object members keep
insertion order, exactly as V8 serializes plain objects. -/

/-- A JSON-serializable JavaScript value. -/
inductive Json where
  | null
  | bool (b : Bool)
  | num (n : Int)
  | str (s : String)
  | arr (elems : List Json)
  | obj (members : List (String × Json))
deriving Repr

/-- Lower-case hex digit, as `JSON.stringify` emits in `\u00XX` escapes. -/
def hexLower (n : Nat) : Char :=
  if n < 10 then Char.ofNat ('0'.toNat + n) else Char.ofNat ('a'.toNat + (n - 10))

/-- How `JSON.stringify` escapes one character inside a string literal. -/
def escapeChar (c : Char) : List Char :=
  if c = '"' then ['\\', '"']
  else if c = '\\' then ['\\', '\\']
  else if c = '\x08' then ['\\', 'b']
  else if c = '\x09' then ['\\', 't']
  else if c = '\x0a' then ['\\', 'n']
  else if c = '\x0c' then ['\\', 'f']
  else if c = '\x0d' then ['\\', 'r']
  else if c.toNat < 32 then ['\\', 'u', '0', '0', hexLower (c.toNat / 16), hexLower (c.toNat % 16)]
  else [c]

/-- A JSON string literal: quote, escaped characters, quote. -/
def quoteChars (s : String) : List Char :=
  '"' :: ((s.toList.map escapeChar).flatten ++ ['"'])

/-- Decimal digits of a natural number, most significant first. -/
def natChars (n : Nat) : List Char :=
  if h : n < 10 then [Char.ofNat ('0'.toNat + n)]
  else natChars (n / 10) ++ [Char.ofNat ('0'.toNat + n % 10)]
decreasing_by exact Nat.div_lt_self (by omega) (by omega)

/-- Decimal rendering of an integer, as JavaScript prints integral numbers. -/
def intChars (i : Int) : List Char :=
  if i < 0 then '-' :: natChars (-i).toNat else natChars i.toNat

mutual
/-- The character stream `JSON.stringify` produces for a value. -/
def Json.chars : Json → List Char
  | .num n => intChars n
  | .str s => quoteChars s
  | .bool false => ['f', 'a', 'l', 's', 'e']
  | .bool true => ['t', 'r', 'u', 'e']
  | .null => ['n', 'u', 'l', 'l']
  | .arr es => '[' :: (Json.charsElems es ++ [']'])
  | .obj ms => '\x7b' :: (Json.charsMembers ms ++ ['\x7d'])

/-- Comma-separated element list of an array (empty for `[]`). -/
def Json.charsElems : List Json → List Char
  | [] => []
  | [e] => Json.chars e
  | e :: rest => Json.chars e ++ ',' :: Json.charsElems rest

/-- Comma-separated `"key":value` member list of an object. -/
def Json.charsMembers : List (String × Json) → List Char
  | [] => []
  | [(k, v)] => quoteChars k ++ ':' :: Json.chars v
  | (k, v) :: rest => quoteChars k ++ ':' :: Json.chars v ++ ',' :: Json.charsMembers rest
end

/-- `JSON.stringify` (compact form). -/
def Json.encode (j : Json) : String := String.mk j.chars

/-! ### `JSON.parse`, modelled as a strict recursive-descent reader

The platform's parser, restricted to the grammar `JSON.stringify`
actually emits (the round-trip theorem below only ever evaluates it on
encoder output, where the two agree). -/

/-- Decimal digit test. -/
def isDigitCh (c : Char) : Bool := '0' ≤ c && c ≤ '9'

/-- Value of a hex digit, either case (48–57 are the digits, 97–102 and
65–70 the lower- and upper-case letters). -/
def hexToNat (c : Char) : Option Nat :=
  let n := c.toNat
  if 48 ≤ n ∧ n ≤ 57 then some (n - 48)
  else if 97 ≤ n ∧ n ≤ 102 then some (n - 87)
  else if 65 ≤ n ∧ n ≤ 70 then some (n - 55)
  else none

/-- The character named by a single-letter escape. -/
def unescapeChar : Char → Option Char
  | '"' => some '"'
  | '\\' => some '\\'
  | '/' => some '/'
  | 'b' => some '\x08'
  | 't' => some '\x09'
  | 'n' => some '\x0a'
  | 'f' => some '\x0c'
  | 'r' => some '\x0d'
  | _ => none

/-- Read a string body up to (and past) the closing quote, undoing escapes. -/
def readStrBody : List Char → Option (List Char × List Char)
  | [] => none
  | c :: rest =>
    if c = '"' then some ([], rest)
    else if c = '\\' then
      match rest with
      | [] => none
      | e :: r2 =>
        if e = 'u' then
          match r2 with
          | a :: b :: c3 :: d :: r3 =>
            match hexToNat a, hexToNat b, hexToNat c3, hexToNat d with
            | some va, some vb, some vc, some vd =>
              match readStrBody r3 with
              | some (cs, r4) =>
                  some (Char.ofNat (((va * 16 + vb) * 16 + vc) * 16 + vd) :: cs, r4)
              | none => none
            | _, _, _, _ => none
          | _ => none
        else
          match unescapeChar e with
          | some ch =>
            match readStrBody r2 with
            | some (cs, r3) => some (ch :: cs, r3)
            | none => none
          | none => none
    else
      match readStrBody rest with
      | some (cs, r2) => some (c :: cs, r2)
      | none => none

/-- Longest digit prefix and the remainder. -/
def takeDigitsP : List Char → List Char × List Char
  | [] => ([], [])
  | c :: rest =>
    if isDigitCh c then
      let p := takeDigitsP rest
      (c :: p.1, p.2)
    else ([], c :: rest)

/-- Numeric value of a digit list. -/
def digitsVal (ds : List Char) : Nat :=
  ds.foldl (fun a c => a * 10 + (c.toNat - '0'.toNat)) 0

/-- Read an optionally signed decimal integer. -/
def readNum (input : List Char) : Option (Int × List Char) :=
  match input with
  | [] => none
  | c :: rest =>
    if c = '-' then
      let p := takeDigitsP rest
      if p.1.isEmpty then none else some (-(digitsVal p.1 : Int), p.2)
    else
      let p := takeDigitsP (c :: rest)
      if p.1.isEmpty then none else some ((digitsVal p.1 : Int), p.2)

mutual
/-- Read one JSON value; `fuel` bounds the recursion and one unit is spent
per reader step, so any input of length below the fuel parses fully. -/
def parseVal : Nat → List Char → Option (Json × List Char)
  | 0, _ => none
  | fuel + 1, input =>
    match input with
    | [] => none
    | c :: rest =>
      if c = 'n' then
        match rest with
        | 'u' :: 'l' :: 'l' :: r => some (.null, r)
        | _ => none
      else if c = 't' then
        match rest with
        | 'r' :: 'u' :: 'e' :: r => some (.bool true, r)
        | _ => none
      else if c = 'f' then
        match rest with
        | 'a' :: 'l' :: 's' :: 'e' :: r => some (.bool false, r)
        | _ => none
      else if c = '"' then
        match readStrBody rest with
        | some (cs, r1) => some (.str (String.mk cs), r1)
        | none => none
      else if c = '[' then
        match rest with
        | [] => none
        | c2 :: t2 =>
          if c2 = ']' then some (.arr [], t2)
          else
            match parseElems fuel (c2 :: t2) with
            | some (es, r1) => some (.arr es, r1)
            | none => none
      else if c = '\x7b' then
        match rest with
        | [] => none
        | c2 :: t2 =>
          if c2 = '\x7d' then some (.obj [], t2)
          else
            match parseMembers fuel (c2 :: t2) with
            | some (ms, r1) => some (.obj ms, r1)
            | none => none
      else
        match readNum (c :: rest) with
        | some (n, r1) => some (.num n, r1)
        | none => none

/-- Read one or more comma-separated array elements and the closing `]`. -/
def parseElems : Nat → List Char → Option (List Json × List Char)
  | 0, _ => none
  | fuel + 1, input =>
    match parseVal fuel input with
    | some (v, r) =>
      match r with
      | [] => none
      | c :: r1 =>
        if c = ',' then
          match parseElems fuel r1 with
          | some (vs, r2) => some (v :: vs, r2)
          | none => none
        else if c = ']' then some ([v], r1)
        else none
    | none => none

/-- Read one or more comma-separated object members and the closing brace. -/
def parseMembers : Nat → List Char → Option (List (String × Json) × List Char)
  | 0, _ => none
  | fuel + 1, input =>
    match input with
    | [] => none
    | c :: rest =>
      if c = '"' then
        match readStrBody rest with
        | some (kcs, r1) =>
          match r1 with
          | [] => none
          | c2 :: r2 =>
            if c2 = ':' then
              match parseVal fuel r2 with
              | some (v, r3) =>
                match r3 with
                | [] => none
                | c3 :: r4 =>
                  if c3 = ',' then
                    match parseMembers fuel r4 with
                    | some (ms, r5) => some ((String.mk kcs, v) :: ms, r5)
                    | none => none
                  else if c3 = '\x7d' then some ([(String.mk kcs, v)], r4)
                  else none
              | none => none
            else none
        | none => none
      else none
end

/-- `JSON.parse` of a complete document. -/
def Json.parse (s : String) : Option Json :=
  match parseVal (s.toList.length + 1) s.toList with
  | some (j, []) => some j
  | _ => none

/-- `createSuccessResponse(data)` from src/utils/error-handler.ts: one text
content entry holding `data` itself when it is a string and its JSON
encoding otherwise, with `isError: false`. -/
def createSuccessResponse (data : Json) : ToolResponse :=
  { content := [{ type := "text",
                  text := match data with
                          | .str s => s
                          | d => Json.encode d }],
    isError := false,
    errorType := none }

/-! ### The rate limiter (src/utils/firebase-client.ts, `RateLimiter`)

`Date.now()` becomes an explicit `now : Nat` argument; the private
`requests` map becomes an insertion-ordered association list, matching
the iteration order of a JavaScript `Map`. -/

/-- `RateLimitConfig`. -/
structure RateLimitConfig where
  maxRequests : Nat
  windowMs : Nat
deriving DecidableEq, Repr

/-- `RequestRecord`. -/
structure RequestRecord where
  count : Nat
  resetTime : Nat
deriving DecidableEq, Repr

/-- The entries of the `Map<string, RequestRecord>`. -/
abbrev ReqMap := List (String × RequestRecord)

/-- `Map.get`. -/
def mapGet (m : ReqMap) (k : String) : Option RequestRecord :=
  match m with
  | [] => none
  | (k2, v) :: rest => if k2 = k then some v else mapGet rest k

/-- `Map.set`: updates in place, else appends (JavaScript insertion order). -/
def mapSet (m : ReqMap) (k : String) (v : RequestRecord) : ReqMap :=
  match m with
  | [] => [(k, v)]
  | (k2, v2) :: rest => if k2 = k then (k2, v) :: rest else (k2, v2) :: mapSet rest k v

/-- `Map.delete`. -/
def mapDelete (m : ReqMap) (k : String) : ReqMap :=
  match m with
  | [] => []
  | (k2, v2) :: rest => if k2 = k then rest else (k2, v2) :: mapDelete rest k

/-- The limiter: its immutable config and its mutable map. -/
structure RateLimiter where
  config : RateLimitConfig
  requests : ReqMap
deriving DecidableEq, Repr

/-- The `RateLimiter` constructor: `config.maxRequests || 100` and
`config.windowMs || 60000` — `||` takes the default both when the field
is absent and when it is `0` (falsy). -/
def RateLimiter.make (maxRequests windowMs : Option Nat := none) : RateLimiter :=
  { config :=
      { maxRequests := match maxRequests with
                       | some v => if v = 0 then 100 else v
                       | none => 100,
        windowMs := match windowMs with
                    | some v => if v = 0 then 60000 else v
                    | none => 60000 },
    requests := [] }

/-- `cleanup()`: drop every record whose reset time has passed. -/
def RateLimiter.cleanup (now : Nat) (m : ReqMap) : ReqMap :=
  m.filter (fun kv => decide (now < kv.2.resetTime))

/-- `checkRateLimit(key)`: the record is read first, then `cleanup()`
runs, then the record is renewed (first request or expired window) or its
count is incremented and compared against the budget. -/
def RateLimiter.checkRateLimit (rl : RateLimiter) (key : String) (now : Nat) :
    Except (ErrorType × String) Unit × RateLimiter :=
  let record := mapGet rl.requests key
  let cleaned := RateLimiter.cleanup now rl.requests
  match record with
  | none =>
      (.ok (), { rl with requests := mapSet cleaned key { count := 1, resetTime := now + rl.config.windowMs } })
  | some rec =>
      if rec.resetTime ≤ now then
        (.ok (), { rl with requests := mapSet cleaned key { count := 1, resetTime := now + rl.config.windowMs } })
      else
        let rec2 : RequestRecord := { rec with count := rec.count + 1 }
        let st := { rl with requests := mapSet cleaned key rec2 }
        if rl.config.maxRequests < rec2.count then
          let waitTime := (rec.resetTime - now + 999) / 1000
          (.error (.RATE_LIMIT,
            "Rate limit exceeded. Please try again in " ++ toString waitTime ++ " seconds."), st)
        else (.ok (), st)

/-- `check(key)`: `true` when `checkRateLimit` does not throw. -/
def RateLimiter.check (rl : RateLimiter) (key : String) (now : Nat) : Bool × RateLimiter :=
  match rl.checkRateLimit key now with
  | (.ok _, st) => (true, st)
  | (.error _, st) => (false, st)

/-- `reset(key)`. -/
def RateLimiter.reset (rl : RateLimiter) (key : String) : RateLimiter :=
  { rl with requests := mapDelete rl.requests key }

/-- `getStatus(key)`: the looked-up record's count and
`Math.max(0, resetTime - now)` (natural subtraction), or `null`. -/
def RateLimiter.getStatus (rl : RateLimiter) (key : String) (now : Nat) :
    Option (Nat × Nat) :=
  match mapGet rl.requests key with
  | none => none
  | some rec => some (rec.count, rec.resetTime - now)

/-- Drive `n` consecutive `check` calls at a fixed clock, collecting the
admission verdicts (the test harness of claims C1 and C10). -/
def runChecks (rl : RateLimiter) (key : String) (now : Nat) : Nat → List Bool × RateLimiter
  | 0 => ([], rl)
  | n + 1 =>
    let step := rl.check key now
    let rest := runChecks step.2 key now n
    (step.1 :: rest.1, rest.2)

/-! ### Security configuration and the Firestore service checks
(src/config.ts `SecurityConfig`; src/services/firebase-service.ts) -/

/-- The fields of `SecurityConfig` the Firestore paths read.  An absent
`allowedCollections` and an empty one behave alike (the code tests
`allowedCollections?.length`), so both live in `Option`. -/
structure SecurityConfig where
  readOnly : Bool
  allowedCollections : Option (List String)
deriving DecidableEq, Repr

/-- Whether the `allowedCollections?.length && !includes(collection)`
guard fires. -/
def collectionBlocked (cfg : SecurityConfig) (collection : String) : Bool :=
  match cfg.allowedCollections with
  | none => false
  | some l => !l.isEmpty && !l.contains collection

/-- `FirestoreServiceImpl.checkCollectionAccess`: read-only mode rejects
every write; then the allow-list is consulted. -/
def checkCollectionAccess (cfg : SecurityConfig) (collection : String) :
    Except String Unit :=
  if cfg.readOnly then
    .error "Server is in read-only mode. Write operations are not allowed."
  else if collectionBlocked cfg collection then
    .error ("Access to collection \x27" ++ collection ++ "\x27 is not allowed.")
  else .ok ()

/-- What a delegate (Firebase platform) call would do, injected so the
pipeline stays pure: either a payload or a thrown message. -/
abbrev Delegate (α : Type) := Except String α

/-- `FirestoreServiceImpl.setDocument`: the gate runs strictly before the
`db...set` call; the second component records whether the delegate write
was reached. -/
def setDocumentService (cfg : SecurityConfig) (collection : String)
    (delegate : Delegate Unit) : Except String Unit × Bool :=
  match checkCollectionAccess cfg collection with
  | .error e => (.error e, false)
  | .ok _ => (delegate, true)

/-- `FirestoreServiceImpl.getDocument`: only the allow-list guards reads;
the delegate models `docRef.get()` plus the not-found throw. -/
def getDocumentService (cfg : SecurityConfig) (collection : String)
    (delegate : Delegate Json) : Except String Json × Bool :=
  if collectionBlocked cfg collection then
    (.error ("Access to collection \x27" ++ collection ++ "\x27 is not allowed."), false)
  else (delegate, true)

/-! ### The security helper concatenated into src/utils/error-handler.ts
(`validateSecurity`): read-only and allow-list checks, then the rate
limiter keyed by `collection_operation`. -/

/-- Operation mode for `validateSecurity`. -/
inductive Operation where
  | read
  | write
deriving DecidableEq, Repr

/-- The string the key is built from. -/
def Operation.name : Operation → String
  | .read => "read"
  | .write => "write"

/-- `validateSecurity(collection, operation, config, rateLimiter)`. -/
def validateSecurity (collection : String) (operation : Operation)
    (cfg : SecurityConfig) (rl : RateLimiter) (now : Nat) :
    Except String Unit × RateLimiter :=
  if cfg.readOnly && operation == .write then
    (.error "Server is in read-only mode. Write operations are not allowed.", rl)
  else if collectionBlocked cfg collection then
    (.error ("Access to collection \x27" ++ collection ++ "\x27 is not allowed."), rl)
  else
    let step := rl.check (collection ++ "_" ++ operation.name) now
    if step.1 then (.ok (), step.2)
    else (.error "Rate limit exceeded. Please try again later.", step.2)

/-! ### Handler pipelines (src/handlers/firestore-handlers.ts)

Each handler checks its module-level rate limiter first, then calls the
service and classifies thrown messages.  The handlers invoke
`createErrorResponse(message, ErrorType.X)` — but the implemented
signature is `createErrorResponse(error, context?)`, so at run time the
message string arrives in the `error` slot (a non-`Error`, classified
`INTERNAL` with the stock message) and the enum's string value arrives in
`context`.  The embedding reproduces exactly that resolution. -/

/-- A handler's observable outcome: the envelope, the limiter afterwards,
and whether the delegate (platform) call was reached. -/
structure HandlerResult where
  resp : ToolResponse
  limiter : RateLimiter
  delegateInvoked : Bool
deriving Repr

/-- The `get_document` tool handler. -/
def getDocumentHandler (cfg : SecurityConfig) (rl : RateLimiter) (now : Nat)
    (collection documentId : String) (delegate : Delegate Json) : HandlerResult :=
  let gate := rl.check "get_document" now
  if !gate.1 then
    { resp := createErrorResponse
        (.plainStr "Rate limit exceeded for get_document. Please try again later.")
        (some (ErrorType.RATE_LIMIT).value),
      limiter := gate.2, delegateInvoked := false }
  else
    match getDocumentService cfg collection delegate with
    | (.ok doc, invoked) =>
        { resp := createSuccessResponse doc, limiter := gate.2, delegateInvoked := invoked }
    | (.error msg, invoked) =>
        if jsIncludes msg "not found" then
          { resp := createErrorResponse
              (.plainStr ("Document \x27" ++ documentId ++ "\x27 not found in collection \x27"
                ++ collection ++ "\x27"))
              (some (ErrorType.NOT_FOUND).value),
            limiter := gate.2, delegateInvoked := invoked }
        else if jsIncludes msg "not allowed" then
          { resp := createErrorResponse (.plainStr msg) (some (ErrorType.AUTHORIZATION).value),
            limiter := gate.2, delegateInvoked := invoked }
        else
          { resp := createErrorResponse (.plainStr ("Error retrieving document: " ++ msg))
              (some (ErrorType.FIREBASE).value),
            limiter := gate.2, delegateInvoked := invoked }

/-- The `set_document` tool handler. -/
def setDocumentHandler (cfg : SecurityConfig) (rl : RateLimiter) (now : Nat)
    (collection documentId : String) (merge : Bool) (delegate : Delegate Unit) :
    HandlerResult :=
  let gate := rl.check "set_document" now
  if !gate.1 then
    { resp := createErrorResponse
        (.plainStr "Rate limit exceeded for set_document. Please try again later.")
        (some (ErrorType.RATE_LIMIT).value),
      limiter := gate.2, delegateInvoked := false }
  else
    match setDocumentService cfg collection delegate with
    | (.ok _, invoked) =>
        { resp := createSuccessResponse
            (.str ("Document \x27" ++ documentId ++ "\x27 successfully "
              ++ (if merge then "merged" else "set") ++ " in collection \x27" ++ collection ++ "\x27")),
          limiter := gate.2, delegateInvoked := invoked }
    | (.error msg, invoked) =>
        if jsIncludes msg "read-only mode" then
          { resp := createErrorResponse (.plainStr msg) (some (ErrorType.AUTHORIZATION).value),
            limiter := gate.2, delegateInvoked := invoked }
        else if jsIncludes msg "not allowed" then
          { resp := createErrorResponse (.plainStr msg) (some (ErrorType.AUTHORIZATION).value),
            limiter := gate.2, delegateInvoked := invoked }
        else
          { resp := createErrorResponse (.plainStr ("Error setting document: " ++ msg))
              (some (ErrorType.FIREBASE).value),
            limiter := gate.2, delegateInvoked := invoked }

/-- The `storage_get_file_info` tool (src/tools/storage/index.ts): its
failure branches build the envelope literally, with `isError: true` and
no `errorType` field at all. -/
def storageGetFileInfo (fileExists : Bool) (filePath : String)
    (metadataText : String) : ToolResponse :=
  if !fileExists then
    { content := [{ type := "text", text := "File not found: " ++ filePath }],
      isError := true, errorType := none }
  else
    { content := [{ type := "text", text := metadataText }],
      isError := false, errorType := none }

/-! ### The validation layer (src/utils/validation.ts) -/

/-- `path.split('/')` at the character level (JavaScript split with a
one-character separator: the empty string yields one empty piece). -/
def splitOnChar (sep : Char) : List Char → List (List Char)
  | [] => [[]]
  | c :: rest =>
    let r := splitOnChar sep rest
    if c = sep then [] :: r
    else
      match r with
      | [] => [[c]]
      | g :: gs => (c :: g) :: gs

/-- Whitespace for `String.prototype.trim` (the ASCII cases). -/
def isSpaceCh (c : Char) : Bool := c = ' ' || c = '\x09' || c = '\x0a' || c = '\x0d'

/-- `segment.trim()`. -/
def trimChars (l : List Char) : List Char :=
  ((l.dropWhile isSpaceCh).reverse.dropWhile isSpaceCh).reverse

/-- The per-segment loop shared by both path validators: a
whitespace-only segment is rejected, then a segment containing `//` —
the label picks the Collection/Document wording. -/
def pathSegmentsCheck (label : String) : List (List Char) → Except (ErrorType × String) Unit
  | [] => .ok ()
  | seg :: rest =>
    if (trimChars seg).isEmpty then
      .error (.INVALID_ARGUMENT, label ++ " path segments cannot be empty")
    else if listHasSub ['/', '/'] seg then
      .error (.INVALID_ARGUMENT, label ++ " path cannot contain consecutive slashes")
    else pathSegmentsCheck label rest

/-- `validateCollectionPath`: non-empty, then `split('/').filter(Boolean)`
must leave an odd positive number of segments, then the segment loop. -/
def validateCollectionPath (path : String) : Except (ErrorType × String) Unit :=
  if path.toList.isEmpty then
    .error (.INVALID_ARGUMENT, "Collection path must be a non-empty string")
  else
    let segments := (splitOnChar '/' path.toList).filter (fun s => !s.isEmpty)
    if segments.length = 0 || segments.length % 2 = 0 then
      .error (.INVALID_ARGUMENT,
        "Invalid collection path format. Must be in format: collection/doc/collection")
    else pathSegmentsCheck "Collection" segments

/-- `validateDocumentPath`: as above with an even positive segment count. -/
def validateDocumentPath (path : String) : Except (ErrorType × String) Unit :=
  if path.toList.isEmpty then
    .error (.INVALID_ARGUMENT, "Document path must be a non-empty string")
  else
    let segments := (splitOnChar '/' path.toList).filter (fun s => !s.isEmpty)
    if segments.length = 0 || segments.length % 2 ≠ 0 then
      .error (.INVALID_ARGUMENT,
        "Invalid document path format. Must be in format: collection/doc")
    else pathSegmentsCheck "Document" segments

/-- A JavaScript value as the data validators receive it: JSON-shaped
values plus `undefined` and a non-serializable leaf (a function value). -/
inductive JsVal where
  | undef
  | nullV
  | boolV (b : Bool)
  | numV (n : Int)
  | strV (s : String)
  | arrV (elems : List JsVal)
  | objV (fields : List (String × JsVal))
  | funcV (name : String)
deriving Repr

/-- `typeof`. -/
def JsVal.typeName : JsVal → String
  | .undef => "undefined"
  | .nullV => "object"
  | .boolV _ => "boolean"
  | .numV _ => "number"
  | .strV _ => "string"
  | .arrV _ => "object"
  | .objV _ => "object"
  | .funcV _ => "function"

/-- JavaScript truthiness. -/
def jsTruthy : JsVal → Bool
  | .undef => false
  | .nullV => false
  | .boolV b => b
  | .numV n => !(n == 0)
  | .strV s => !s.isEmpty
  | .arrV _ => true
  | .objV _ => true
  | .funcV _ => true

/-- `path.join('.')` in the validator's error messages. -/
def joinDots (path : List String) : String := String.intercalate "." path

mutual
/-- `checkValue` inside `validateDocumentData`: `undefined` anywhere is
rejected (with its path), `null` passes, arrays and plain objects
recurse, and any other leaf must be a string, number or boolean. -/
def checkValue : JsVal → List String → Except (ErrorType × String) Unit
  | .undef, path =>
      .error (.INVALID_ARGUMENT,
        "Document data cannot contain undefined values (at " ++ joinDots path ++ ")")
  | .nullV, _ => .ok ()
  | .arrV elems, path => checkElemsV elems 0 path
  | .objV fields, path => checkFieldsV fields path
  | .boolV _, _ => .ok ()
  | .numV _, _ => .ok ()
  | .strV _, _ => .ok ()
  | .funcV _, path =>
      .error (.INVALID_ARGUMENT,
        "Unsupported value type function in document data (at " ++ joinDots path ++ ")")

/-- Array elements, visited with their index appended to the path. -/
def checkElemsV : List JsVal → Nat → List String → Except (ErrorType × String) Unit
  | [], _, _ => .ok ()
  | v :: rest, i, path =>
    match checkValue v (path ++ [toString i]) with
    | .error e => .error e
    | .ok _ => checkElemsV rest (i + 1) path

/-- Object entries, visited with their key appended to the path. -/
def checkFieldsV : List (String × JsVal) → List String → Except (ErrorType × String) Unit
  | [], _ => .ok ()
  | (k, v) :: rest, path =>
    match checkValue v (path ++ [k]) with
    | .error e => .error e
    | .ok _ => checkFieldsV rest path
end

/-- `validateDocumentData`: the top value must be truthy with
`typeof === 'object'`, then `checkValue` walks it. -/
def validateDocumentData (data : JsVal) : Except (ErrorType × String) Unit :=
  if !jsTruthy data || data.typeName ≠ "object" then
    .error (.INVALID_ARGUMENT, "Document data must be a non-null object")
  else checkValue data []

/-- One entry of a `batch_write` operations array; each field holds
whatever JavaScript value the caller supplied (`undef` when absent). -/
structure BatchOp where
  type : JsVal
  path : JsVal
  data : JsVal

/-- `validateDocumentPath` as called on an arbitrary value: the
`!path || typeof path !== 'string'` guard, then the string validator. -/
def validateDocumentPathVal (v : JsVal) : Except (ErrorType × String) Unit :=
  match v with
  | .strV s => validateDocumentPath s
  | _ => .error (.INVALID_ARGUMENT, "Document path must be a non-empty string")

/-- `['set', 'update', 'delete'].includes(op.type)`. -/
def batchTypeOk (v : JsVal) : Bool :=
  match v with
  | .strV s => s = "set" || s = "update" || s = "delete"
  | _ => false

/-- `op.type !== 'delete'` is false exactly here. -/
def isDeleteType : JsVal → Bool
  | .strV s => s = "delete"
  | _ => false

/-- The per-entry loop of `validateBatchOperations`: presence of all
three properties (including `data`, whatever the type), then type
membership, then data validation for non-delete entries, then the path. -/
def batchLoop : List BatchOp → Except (ErrorType × String) Unit
  | [] => .ok ()
  | op :: rest =>
    if !jsTruthy op.type || !jsTruthy op.path || !jsTruthy op.data then
      .error (.INVALID_ARGUMENT,
        "Each batch operation must have type, path, and data properties")
    else if !batchTypeOk op.type then
      .error (.INVALID_ARGUMENT,
        "Invalid batch operation type. Must be one of: set, update, delete")
    else
      match (if !isDeleteType op.type then validateDocumentData op.data else .ok ()) with
      | .error e => .error e
      | .ok _ =>
        match validateDocumentPathVal op.path with
        | .error e => .error e
        | .ok _ => batchLoop rest

/-- `validateBatchOperations` on an array argument (the `Array.isArray`
guard is the typed premise here): non-empty, at most 500 entries, then
the per-entry loop. -/
def validateBatchOperations (operations : List BatchOp) : Except (ErrorType × String) Unit :=
  if operations.length = 0 then
    .error (.INVALID_ARGUMENT, "Batch operations array cannot be empty")
  else if 500 < operations.length then
    .error (.INVALID_ARGUMENT, "Batch operations cannot exceed 500 operations")
  else batchLoop operations

/-! ### Auxiliary definitions used by the verification statements -/

/-- The contextualized message of an envelope (`context + ": "` prefix
when a context is supplied). -/
def contextualize (ctx : Option String) (msg : String) : String :=
  match ctx with
  | some c => c ++ ": " ++ msg
  | none => msg

/-- What makes one batch entry invalid: a missing (falsy) `type`, `path`
or `data` property — `data` required even for deletes — a type outside
`set`/`update`/`delete`, invalid document data for non-delete entries,
or an invalid document path. -/
def badBatchOp (op : BatchOp) : Bool :=
  !jsTruthy op.type || !jsTruthy op.path || !jsTruthy op.data
    || !batchTypeOk op.type
    || (!isDeleteType op.type && !(validateDocumentData op.data).isOk)
    || !(validateDocumentPathVal op.path).isOk

/-- `true` when the list does not begin with a decimal digit (so a
greedy number read stops exactly at the boundary). -/
def nonDigitStart : List Char → Bool
  | [] => true
  | c :: _ => !isDigitCh c

/-- What follows the first element inside a rendered array. -/
def elemsTail : List Json → List Char
  | [] => []
  | e :: es => ',' :: Json.charsElems (e :: es)

/-- What follows the first member inside a rendered object. -/
def membersTail : List (String × Json) → List Char
  | [] => []
  | m :: ms => ',' :: Json.charsMembers (m :: ms)

/-! ### Theorems -/

/-- A fresh key: the first check admits and installs `{count 1, now+W}`. -/
theorem check_fresh (cfg : RateLimitConfig) (key : String) (now : Nat) :
    RateLimiter.check ⟨cfg, []⟩ key now
      = (true, ⟨cfg, [(key, ⟨1, now + cfg.windowMs⟩)]⟩) := rfl

/-- An expired record: the check admits and renews the record. -/
theorem check_expired (cfg : RateLimitConfig) (key : String) (now c rt : Nat)
    (h : rt ≤ now) :
    RateLimiter.check ⟨cfg, [(key, ⟨c, rt⟩)]⟩ key now
      = (true, ⟨cfg, [(key, ⟨1, now + cfg.windowMs⟩)]⟩) := by
  simp [RateLimiter.check, RateLimiter.checkRateLimit, mapGet, RateLimiter.cleanup,
    mapSet, List.filter, decide_eq_false (Nat.not_lt.mpr h), h]

/-- A live record: the count is incremented (kept even on rejection) and
the request is admitted iff the new count fits the budget. -/
theorem check_live (cfg : RateLimitConfig) (key : String) (now c rt : Nat)
    (h : now < rt) :
    RateLimiter.check ⟨cfg, [(key, ⟨c, rt⟩)]⟩ key now
      = (decide (c + 1 ≤ cfg.maxRequests), ⟨cfg, [(key, ⟨c + 1, rt⟩)]⟩) := by
  have hnle : ¬ rt ≤ now := Nat.not_le.mpr h
  by_cases hm : cfg.maxRequests < c + 1
  · simp [RateLimiter.check, RateLimiter.checkRateLimit, mapGet, RateLimiter.cleanup,
      mapSet, List.filter, hnle, hm, decide_eq_true h, Nat.not_le.mpr hm]
  · simp [RateLimiter.check, RateLimiter.checkRateLimit, mapGet, RateLimiter.cleanup,
      mapSet, List.filter, hnle, hm, decide_eq_true h, Nat.le_of_not_lt hm]

/-- Driving the window to exhaustion: from a live record at count `c`,
`m` more checks (ending exactly at budget + 1) admit until the budget is
met and reject the last, leaving the count at the attempt total. -/
theorem runChecks_live (cfg : RateLimitConfig) (key : String) (now rt : Nat)
    (h : now < rt) :
    ∀ (m : Nat), 1 ≤ m → ∀ c, c + m = cfg.maxRequests + 1 →
      runChecks ⟨cfg, [(key, ⟨c, rt⟩)]⟩ key now m
        = (List.replicate (cfg.maxRequests - c) true ++ [false],
           ⟨cfg, [(key, ⟨c + m, rt⟩)]⟩) := by
  intro m
  induction m with
  | zero => omega
  | succ m ih =>
    intro _ c hc
    rcases Nat.eq_zero_or_pos m with hm0 | hm1
    · subst hm0
      have hcmax : c = cfg.maxRequests := by omega
      subst hcmax
      have hfalse : ¬ (cfg.maxRequests + 1 ≤ cfg.maxRequests) := by omega
      simp [runChecks, check_live cfg key now _ rt h, hfalse,
        Nat.sub_self, List.replicate]
    · have hlt : c + 1 ≤ cfg.maxRequests := by omega
      have hrepl : cfg.maxRequests - c = (cfg.maxRequests - (c + 1)) + 1 := by omega
      have hstep := check_live cfg key now c rt h
      have htail := ih hm1 (c + 1) (by omega)
      simp only [runChecks, hstep, decide_eq_true hlt, htail, hrepl,
        List.replicate_succ, List.cons_append]
      have hcount : c + 1 + m = c + (m + 1) := by omega
      rw [hcount]

/-- The full fixed-window scenario from an empty limiter: `N + 1` calls
inside one window admit the first `N` and reject the last. -/
theorem runChecks_full (cfg : RateLimitConfig) (key : String) (t : Nat)
    (hN : 0 < cfg.maxRequests) (hW : 0 < cfg.windowMs) :
    runChecks ⟨cfg, []⟩ key t (cfg.maxRequests + 1)
      = (List.replicate cfg.maxRequests true ++ [false],
         ⟨cfg, [(key, ⟨cfg.maxRequests + 1, t + cfg.windowMs⟩)]⟩) := by
  obtain ⟨k, hk⟩ : ∃ k, cfg.maxRequests = k + 1 := ⟨cfg.maxRequests - 1, by omega⟩
  have h1 : t < t + cfg.windowMs := by omega
  have htail := runChecks_live cfg key t (t + cfg.windowMs) h1
    cfg.maxRequests hN 1 (by omega)
  rw [hk] at htail ⊢
  simp only [Nat.add_sub_cancel] at htail
  conv_lhs => rw [runChecks]
  simp only [check_fresh, htail]
  have hc : 1 + (k + 1) = k + 1 + 1 := by omega
  rw [hc, List.replicate_succ, List.cons_append]



/-- **C1.** Fixed-window rate limiter correctness: a check against a
missing or expired record admits and installs `{count 1, now + W}`; a
check inside a live window increments the stored count (kept even when
rejected) and admits exactly when the new count is within budget; hence
from an empty limiter, `N + 1` calls inside one window admit the first
`N`, reject the last, and leave the count at `N + 1`; and the first check
at or past the reset time readmits with the count back at 1. -/
theorem c1_rate_limiter_fixed_window (N W t : Nat) (key : String)
    (hN : 0 < N) (hW : 0 < W) :
    (RateLimiter.check ⟨⟨N, W⟩, []⟩ key t = (true, ⟨⟨N, W⟩, [(key, ⟨1, t + W⟩)]⟩))
    ∧ (∀ c rt, rt ≤ t →
        RateLimiter.check ⟨⟨N, W⟩, [(key, ⟨c, rt⟩)]⟩ key t
          = (true, ⟨⟨N, W⟩, [(key, ⟨1, t + W⟩)]⟩))
    ∧ (∀ c rt, t < rt →
        RateLimiter.check ⟨⟨N, W⟩, [(key, ⟨c, rt⟩)]⟩ key t
          = (decide (c + 1 ≤ N), ⟨⟨N, W⟩, [(key, ⟨c + 1, rt⟩)]⟩))
    ∧ (runChecks ⟨⟨N, W⟩, []⟩ key t (N + 1)
        = (List.replicate N true ++ [false], ⟨⟨N, W⟩, [(key, ⟨N + 1, t + W⟩)]⟩)) :=
  ⟨check_fresh ⟨N, W⟩ key t,
   fun c rt h => check_expired ⟨N, W⟩ key t c rt h,
   fun c rt h => check_live ⟨N, W⟩ key t c rt h,
   runChecks_full ⟨N, W⟩ key t hN hW⟩

/-- Witness for C1 at `N = 2`, `W = 5`, `t = 7`. -/
theorem c1_rate_limiter_fixed_window_witness :
    (0 < 2 ∧ 0 < 5)
    ∧ runChecks ⟨⟨2, 5⟩, []⟩ "k" 7 3
        = (List.replicate 2 true ++ [false], ⟨⟨2, 5⟩, [("k", ⟨3, 12⟩)]⟩) :=
  ⟨⟨by decide, by decide⟩,
   (c1_rate_limiter_fixed_window 2 5 7 "k" (by decide) (by decide)).2.2.2⟩

/-- Deleting one key leaves every other key's entry alone. -/
theorem mapGet_mapDelete_ne (m : ReqMap) (k2 key : String) (h : k2 ≠ key) :
    mapGet (mapDelete m k2) key = mapGet m key := by
  induction m with
  | nil => rfl
  | cons kv rest ih =>
    by_cases h3 : kv.1 = k2
    · have hne : kv.1 ≠ key := by rw [h3]; exact h
      simp [mapDelete, mapGet, h3, hne, h]
    · by_cases h4 : kv.1 = key
      · have hkk : key ≠ k2 := by rw [← h4]; exact h3
        simp [mapDelete, mapGet, h3, h4, hkk]
      · simp [mapDelete, mapGet, h3, h4, ih]

/-- **C9.** `getStatus` does not observe window expiry: while only
`check` purges expired records (and `reset` only drops its own key),
a stale record is still reported — its full count with the remaining
time clamped to zero — rather than the key appearing absent. -/
theorem c9_getStatus_reports_stale_record (rl : RateLimiter) (key : String)
    (now : Nat) (rec : RequestRecord)
    (hrec : mapGet rl.requests key = some rec) (hexp : rec.resetTime ≤ now) :
    rl.getStatus key now = some (rec.count, 0)
    ∧ ∀ k2, k2 ≠ key → mapGet (rl.reset k2).requests key = some rec := by
  constructor
  · simp [RateLimiter.getStatus, hrec, Nat.sub_eq_zero_of_le hexp]
  · intro k2 h2
    rw [RateLimiter.reset, mapGet_mapDelete_ne rl.requests k2 key h2, hrec]

/-- Witness for C9: an expired record (reset time 10, clock 50) is still
reported with count 3 and zero remaining time. -/
theorem c9_getStatus_reports_stale_record_witness :
    RateLimiter.getStatus ⟨⟨100, 60000⟩, [("k", ⟨3, 10⟩)]⟩ "k" 50 = some (3, 0)
    ∧ mapGet ((⟨⟨100, 60000⟩, [("k", ⟨3, 10⟩)]⟩ : RateLimiter).reset "other").requests "k"
        = some ⟨3, 10⟩ :=
  ⟨(c9_getStatus_reports_stale_record ⟨⟨100, 60000⟩, [("k", ⟨3, 10⟩)]⟩ "k" 50 ⟨3, 10⟩
      (by rfl) (by decide)).1,
   (c9_getStatus_reports_stale_record ⟨⟨100, 60000⟩, [("k", ⟨3, 10⟩)]⟩ "k" 50 ⟨3, 10⟩
      (by rfl) (by decide)).2 "other" (by decide)⟩

/-- **C10.** The constructor never rejects a non-positive configuration:
`0` (like an absent field) silently becomes the default — 100 requests,
60000 ms — so a limiter built with `maxRequests = 0` admits exactly 100
requests in a 60-second window instead of failing or rejecting all. -/
theorem c10_constructor_zero_defaults :
    (∀ w, (RateLimiter.make (some 0) w).config.maxRequests = 100)
    ∧ (∀ m, (RateLimiter.make m (some 0)).config.windowMs = 60000)
    ∧ (∀ m w, (RateLimiter.make m w).config.maxRequests ≠ 0
        ∧ (RateLimiter.make m w).config.windowMs ≠ 0)
    ∧ (runChecks (RateLimiter.make (some 0) (some 0)) "k" 0 101).1
        = List.replicate 100 true ++ [false] := by
  refine ⟨fun w => rfl, ?_, ?_, ?_⟩
  · intro m
    cases m with
    | none => rfl
    | some v =>
      by_cases hv : v = 0 <;> simp [RateLimiter.make, hv]
  · intro m w
    constructor
    · cases m with
      | none => simp [RateLimiter.make]
      | some v => by_cases hv : v = 0 <;> simp [RateLimiter.make, hv]
    · cases w with
      | none => simp [RateLimiter.make]
      | some v => by_cases hv : v = 0 <;> simp [RateLimiter.make, hv]
  · have h := runChecks_full ⟨100, 60000⟩ "k" 0 (by decide) (by decide)
    have hmk : RateLimiter.make (some 0) (some 0) = ⟨⟨100, 60000⟩, []⟩ := rfl
    rw [hmk, h]



/-- **C2 counterexample.** A failing tool invocation whose envelope has
no error kind at all: `storage_get_file_info` on a missing file returns
`isError: true` with `errorType` absent, refuting the claim that every
failing envelope carries one of the six taxonomy values. -/
theorem c2_closed_taxonomy_counterexample :
    (storageGetFileInfo false "missing.txt" "").isError = true
    ∧ (storageGetFileInfo false "missing.txt" "").errorType = none :=
  ⟨rfl, rfl⟩

/-- **C2 (amended).** Envelopes produced by `createErrorResponse` always
carry `isError = true` and a populated error kind, but the kind ranges
over the eleven-value `ErrorType` enum, not the spec's six: the
`permission` substring classifies to `PERMISSION` (outside the six), a
`FirebaseMcpError` of kind `FIREBASE` passes through unchanged, and the
storage tools' failure branches return no error kind at all. -/
theorem c2_error_kind_amended :
    (∀ (e : JsError) (ctx : Option String),
        (createErrorResponse e ctx).isError = true
        ∧ (createErrorResponse e ctx).errorType.isSome = true)
    ∧ ((createErrorResponse (.jsErr "permission denied") none).errorType = some .PERMISSION
        ∧ ErrorType.PERMISSION ∉ specTaxonomy)
    ∧ ((createErrorResponse (.mcpErr .FIREBASE "boom") none).errorType = some .FIREBASE
        ∧ ErrorType.FIREBASE ∉ specTaxonomy)
    ∧ ((storageGetFileInfo false "p.txt" "").isError = true
        ∧ (storageGetFileInfo false "p.txt" "").errorType = none) :=
  ⟨fun _ _ => ⟨rfl, rfl⟩, ⟨by rfl, by decide⟩, ⟨rfl, by decide⟩, rfl, rfl⟩

/-- **C3 (code-bug evaluation).** Under `readOnly = true` the
`set_document` pipeline rejects before the delegate write — for every
delegate behavior — but the envelope's kind is `INTERNAL`, not
`AUTHORIZATION`: the handler feeds `(message, ErrorType.AUTHORIZATION)`
to `createErrorResponse(error, context?)`, so the enum's string lands in
the context slot and the message is replaced by the stock text. -/
theorem c3_read_only_gate_eval :
    ((setDocumentHandler ⟨true, none⟩ RateLimiter.make 0 "users" "doc1" false
        (.ok ())).resp.isError = true)
    ∧ ((setDocumentHandler ⟨true, none⟩ RateLimiter.make 0 "users" "doc1" false
        (.ok ())).resp.errorType = some .INTERNAL)
    ∧ ((setDocumentHandler ⟨true, none⟩ RateLimiter.make 0 "users" "doc1" false
        (.ok ())).resp.errorType ≠ some .AUTHORIZATION)
    ∧ ((setDocumentHandler ⟨true, none⟩ RateLimiter.make 0 "users" "doc1" false
        (.ok ())).resp.content
        = [{ type := "text", text := "authorization_error: An unexpected error occurred" }])
    ∧ (∀ d : Delegate Unit,
        (setDocumentHandler ⟨true, none⟩ RateLimiter.make 0 "users" "doc1" false
          d).delegateInvoked = false)
    ∧ (∀ d : Delegate Unit, (setDocumentService ⟨true, none⟩ "users" d).2 = false) :=
  ⟨rfl, rfl, by decide, rfl, fun d => rfl, fun d => rfl⟩

/-- **C4 counterexample.** In the `get_document` handler the rate limiter
runs before any policy check: a request whose collection is outside the
allow-list is rejected without reaching the delegate, yet the limiter's
record for `get_document` goes from absent to `{count 1}` — the
policy-rejected request consumed rate budget. -/
theorem c4_policy_before_rate_counterexample :
    ((getDocumentHandler ⟨false, some ["users"]⟩ RateLimiter.make 0 "secret" "d1"
        (.ok .null)).resp.isError = true)
    ∧ ((getDocumentHandler ⟨false, some ["users"]⟩ RateLimiter.make 0 "secret" "d1"
        (.ok .null)).delegateInvoked = false)
    ∧ mapGet RateLimiter.make.requests "get_document" = none
    ∧ mapGet (getDocumentHandler ⟨false, some ["users"]⟩ RateLimiter.make 0 "secret" "d1"
        (.ok .null)).limiter.requests "get_document" = some ⟨1, 60000⟩ :=
  ⟨rfl, rfl, rfl, rfl⟩

/-- **C4 (amended).** `validateSecurity` does evaluate the read-only and
allow-list checks strictly before its rate-limit check, so a request it
rejects on policy grounds leaves the limiter untouched; the firestore
handlers, however, run their rate limiter first and delegate policy to
the service, so a policy-rejected request there still consumes budget. -/
theorem c4_gate_order_amended (cfg : SecurityConfig) (rl : RateLimiter)
    (collection : String) (op : Operation) (now : Nat)
    (hrej : (cfg.readOnly = true ∧ op = .write) ∨ collectionBlocked cfg collection = true) :
    ((validateSecurity collection op cfg rl now).1.isOk = false
      ∧ (validateSecurity collection op cfg rl now).2 = rl)
    ∧ mapGet (getDocumentHandler ⟨false, some ["users"]⟩ RateLimiter.make 0 "secret" "d1"
        (.ok .null)).limiter.requests "get_document" = some ⟨1, 60000⟩ := by
  refine ⟨?_, rfl⟩
  rcases hrej with ⟨h1, h2⟩ | hb
  · subst h2
    simp [validateSecurity, h1, Except.isOk, Except.toBool]
  · by_cases hro : cfg.readOnly && op == .write
    · simp [validateSecurity, hro, Except.isOk, Except.toBool]
    · simp [validateSecurity, hro, hb, Except.isOk, Except.toBool]

/-- Witness for C4 (amended) at a read-only write rejection. -/
theorem c4_gate_order_amended_witness :
    ((validateSecurity "users" .write ⟨true, none⟩ RateLimiter.make 0).1.isOk = false
      ∧ (validateSecurity "users" .write ⟨true, none⟩ RateLimiter.make 0).2 = RateLimiter.make)
    ∧ mapGet (getDocumentHandler ⟨false, some ["users"]⟩ RateLimiter.make 0 "secret" "d1"
        (.ok .null)).limiter.requests "get_document" = some ⟨1, 60000⟩ :=
  c4_gate_order_amended ⟨true, none⟩ RateLimiter.make "users" .write 0 (Or.inl ⟨rfl, rfl⟩)

/-- **C5 counterexample.** A message that contains `disabled` (and none
of the three substrings the code does inspect) still classifies to the
default `INTERNAL`: `createErrorResponse` never inspects `disabled`,
`read-only`, or `not allowed`. -/
theorem c5_substring_counterexample :
    jsIncludes "Storage operations are disabled." "disabled" = true
    ∧ jsIncludes "Storage operations are disabled." "permission" = false
    ∧ jsIncludes "Storage operations are disabled." "not found" = false
    ∧ jsIncludes "Storage operations are disabled." "already exists" = false
    ∧ (createErrorResponse (.jsErr "Storage operations are disabled.") none).errorType
        = some .INTERNAL := by
  refine ⟨by rfl, by rfl, by rfl, by rfl, by rfl⟩

/-- **C5 (amended).** `createErrorResponse` preserves a known kind;
otherwise it inspects the message only for `permission` (to
`PERMISSION`), then `not found` (to `NOT_FOUND`), then `already exists`
(to `ALREADY_EXISTS`), defaulting to `INTERNAL` — `disabled`,
`read-only` and `not allowed` are never inspected — and a non-`Error`
input keeps the stock message; the context, when supplied, prefixes the
message. -/
theorem c5_wrap_error_classification_amended (t : ErrorType) (msg : String)
    (ctx : Option String) :
    createErrorResponse (.mcpErr t msg) ctx
      = { content := [{ type := "text", text := contextualize ctx msg }],
          isError := true, errorType := some t }
    ∧ createErrorResponse (.jsErr msg) ctx
      = { content := [{ type := "text", text := contextualize ctx msg }],
          isError := true,
          errorType := some (if jsIncludes msg "permission" = true then .PERMISSION
            else if jsIncludes msg "not found" = true then .NOT_FOUND
            else if jsIncludes msg "already exists" = true then .ALREADY_EXISTS
            else .INTERNAL) }
    ∧ createErrorResponse (.plainStr msg) ctx
      = { content :=
            [{ type := "text", text := contextualize ctx "An unexpected error occurred" }],
          isError := true, errorType := some .INTERNAL } := by
  refine ⟨by cases ctx <;> rfl, ?_, by cases ctx <;> rfl⟩
  by_cases h1 : jsIncludes msg "permission" = true
  · cases ctx <;> simp [createErrorResponse, contextualize, h1]
  · by_cases h2 : jsIncludes msg "not found" = true
    · cases ctx <;> simp [createErrorResponse, contextualize, h1, h2]
    · by_cases h3 : jsIncludes msg "already exists" = true
      · cases ctx <;> simp [createErrorResponse, contextualize, h1, h2, h3]
      · cases ctx <;> simp [createErrorResponse, contextualize, h1, h2, h3]



/-- **C6 (code-bug evaluation).** The document-path validator accepts
`"a//b"`: `split('/').filter(Boolean)` discards the empty segment between
the two slashes, so the parity check sees `["a","b"]` and the
consecutive-slash branch can never fire (a segment cannot contain `/`).
The claim's other examples behave as stated, and the collection variant
has the same slip (`"a//b/c"` passes). -/
theorem c6_path_validator_eval :
    validateDocumentPath "a//b" = .ok ()
    ∧ validateDocumentPath "a/b" = .ok ()
    ∧ (validateDocumentPath "a").isOk = false
    ∧ (validateDocumentPath "").isOk = false
    ∧ validateCollectionPath "a" = .ok ()
    ∧ (validateCollectionPath "a/b").isOk = false
    ∧ validateCollectionPath "a//b/c" = .ok () :=
  ⟨rfl, rfl, rfl, rfl, rfl, rfl, rfl⟩

/-- **C7 counterexample.** A single delete entry with a valid type and
path but no `data` property: none of the claim's rejection conditions
holds (non-empty, one entry, type in the set, path valid, and delete
entries need no data by the claim), yet `validateBatchOperations`
rejects it — the presence check `!op.data` applies to deletes too. -/
theorem c7_batch_delete_data_counterexample :
    (validateBatchOperations [⟨.strV "delete", .strV "a/b", .undef⟩]).isOk = false
    ∧ ([(⟨.strV "delete", .strV "a/b", .undef⟩ : BatchOp)].length = 1)
    ∧ batchTypeOk (.strV "delete") = true
    ∧ validateDocumentPathVal (.strV "a/b") = .ok ()
    ∧ isDeleteType (.strV "delete") = true :=
  ⟨rfl, rfl, rfl, rfl, rfl⟩

/-- `isOk` on explicit constructors. -/
@[simp] theorem except_isOk_ok {e a : Type} (u : a) : (Except.ok u : Except e a).isOk = true := rfl

/-- `isOk` on explicit error constructors. -/
@[simp] theorem except_isOk_error {e a : Type} (x : e) :
    (Except.error x : Except e a).isOk = false := rfl

/-- The entry loop accepts exactly when every entry is good. -/
theorem batchLoop_ok_iff (ops : List BatchOp) :
    (batchLoop ops).isOk = true ↔ ∀ op ∈ ops, badBatchOp op = false := by
  induction ops with
  | nil => simp [batchLoop]
  | cons op rest ih =>
    simp only [batchLoop]
    by_cases h1 : (!jsTruthy op.type || !jsTruthy op.path || !jsTruthy op.data) = true
    · rw [if_pos h1]
      have h1x : jsTruthy op.type = false ∨ jsTruthy op.path = false
          ∨ jsTruthy op.data = false := by
        simpa [or_assoc] using h1
      rcases h1x with h | h | h <;>
        simp [h, badBatchOp, List.forall_mem_cons]
    · have h1x : jsTruthy op.type = true ∧ jsTruthy op.path = true
          ∧ jsTruthy op.data = true := by
        constructor
        · rcases Bool.eq_false_or_eq_true (jsTruthy op.type) with h | h
          · exact h
          · exact absurd (by simp [h]) h1
        constructor
        · rcases Bool.eq_false_or_eq_true (jsTruthy op.path) with h | h
          · exact h
          · exact absurd (by simp [h]) h1
        · rcases Bool.eq_false_or_eq_true (jsTruthy op.data) with h | h
          · exact h
          · exact absurd (by simp [h]) h1
      rw [if_neg h1]
      by_cases h2 : (!batchTypeOk op.type) = true
      · rw [if_pos h2]
        have h2x : batchTypeOk op.type = false := by simpa using h2
        simp [h2x, badBatchOp, List.forall_mem_cons]
      · have h2x : batchTypeOk op.type = true := by simpa using h2
        rw [if_neg h2]
        rcases hv : (if !isDeleteType op.type then validateDocumentData op.data
            else Except.ok ()) with e | u
        · by_cases hd : isDeleteType op.type = true
          · rw [if_neg (by simp [hd])] at hv
            exact absurd hv (by simp)
          · have hd2 : isDeleteType op.type = false := by simpa using hd
            rw [if_pos (by simp [hd2])] at hv
            simp [badBatchOp, hd2, hv, List.forall_mem_cons, h1x, h2x]
        · rcases hpv : validateDocumentPathVal op.path with e2 | u2
          · simp [badBatchOp, hpv, List.forall_mem_cons]
          · have hgood : badBatchOp op = false := by
              simp only [badBatchOp, h1x.1, h1x.2.1, h1x.2.2, h2x, hpv]
              by_cases hd : isDeleteType op.type = true
              · simp [hd]
              · have hd2 : isDeleteType op.type = false := by simpa using hd
                rw [if_pos (by simp [hd2])] at hv
                simp [hd2, hv]
            simp [ih, List.forall_mem_cons, hgood]

/-- **C7 (amended).** A batch passes validation iff it is non-empty, has
at most 500 entries, and every entry carries truthy `type`, `path` and
`data` properties (data required for delete entries too, though delete
data is not validated further), a type among set/update/delete, valid
document data for non-delete entries, and a valid document path. -/
theorem c7_batch_validation_amended (operations : List BatchOp) :
    (validateBatchOperations operations).isOk = true
      ↔ operations ≠ [] ∧ operations.length ≤ 500
        ∧ ∀ op ∈ operations, badBatchOp op = false := by
  unfold validateBatchOperations
  by_cases h0 : operations.length = 0
  · have hnil : operations = [] := List.length_eq_zero.mp h0
    simp [h0, hnil, Except.isOk, Except.toBool]
  · have hne : operations ≠ [] := by
      intro h
      exact h0 (by simp [h])
    by_cases h5 : 500 < operations.length
    · simp [h0, h5, Except.isOk, Nat.not_le.mpr h5]
    · simp [h0, h5, batchLoop_ok_iff, Nat.le_of_not_lt h5, hne]



/-- Rendering a digit value yields a digit character. -/
theorem digitChar_isDigit : ∀ k, k < 10 → isDigitCh (Char.ofNat (48 + k)) = true := by
  decide

/-- Rendered digit characters decode back to their value. -/
theorem digitChar_toNat : ∀ k, k < 10 → (Char.ofNat (48 + k)).toNat = 48 + k := by
  decide

/-- A digit character differs from any non-digit character. -/
theorem isDigit_ne {c d : Char} (h : isDigitCh c = true) (hd : isDigitCh d = false) :
    c ≠ d := by
  intro he
  rw [he, hd] at h
  cases h

/-- The rendered digits of `n` are all digits. -/
theorem natChars_all_digits (n : Nat) : ∀ c ∈ natChars n, isDigitCh c = true := by
  induction n using Nat.strong_induction_on with
  | _ n ih =>
    rw [natChars]
    by_cases h : n < 10
    · rw [dif_pos h]
      simp only [List.mem_singleton]
      rintro c rfl
      exact digitChar_isDigit n h
    · rw [dif_neg h]
      simp only [List.mem_append, List.mem_singleton]
      rintro c (hc | rfl)
      · exact ih (n / 10) (Nat.div_lt_self (by omega) (by omega)) c hc
      · exact digitChar_isDigit (n % 10) (Nat.mod_lt _ (by omega))

/-- The rendering of `n` is never empty. -/
theorem natChars_ne_nil (n : Nat) : natChars n ≠ [] := by
  rw [natChars]
  by_cases h : n < 10
  · rw [dif_pos h]
    exact List.cons_ne_nil _ _
  · rw [dif_neg h]
    intro hh
    rcases List.append_eq_nil.mp hh with ⟨-, h2⟩
    exact absurd h2 (List.cons_ne_nil _ _)

/-- Folding the digit-accumulator over `natChars n` from `a` adds `n`
below `a` shifted by the digit count. -/
theorem foldl_natChars (n : Nat) : ∀ a : Nat,
    List.foldl (fun a c => a * 10 + (c.toNat - '0'.toNat)) a (natChars n)
      = a * 10 ^ (natChars n).length + n := by
  induction n using Nat.strong_induction_on with
  | _ n ih =>
    intro a
    by_cases h : n < 10
    · rw [natChars, dif_pos h]
      have hd : (Char.ofNat ('0'.toNat + n)).toNat = '0'.toNat + n := digitChar_toNat n h
      simp only [List.foldl, List.length_singleton, pow_one]
      rw [hd]
      omega
    · rw [natChars, dif_neg h]
      rw [List.foldl_append, ih (n / 10) (Nat.div_lt_self (by omega) (by omega)) a]
      have hd : (Char.ofNat ('0'.toNat + n % 10)).toNat = '0'.toNat + n % 10 :=
        digitChar_toNat (n % 10) (Nat.mod_lt _ (by omega))
      simp only [List.foldl, List.length_append, List.length_singleton]
      rw [hd, pow_succ]
      have hdm := Nat.div_add_mod n 10
      have hpow : 0 < 10 ^ (natChars (n / 10)).length := Nat.pos_pow_of_pos _ (by omega)
      ring_nf
      omega

/-- `digitsVal` decodes what `natChars` encodes. -/
theorem digitsVal_natChars (n : Nat) : digitsVal (natChars n) = n := by
  have h := foldl_natChars n 0
  simpa [digitsVal] using h



/-- A greedy digit read stops immediately on a non-digit boundary. -/
theorem takeDigitsP_stop (rest : List Char) (h : nonDigitStart rest = true) :
    takeDigitsP rest = ([], rest) := by
  cases rest with
  | nil => rfl
  | cons c t =>
    have hc : isDigitCh c = false := by simpa [nonDigitStart] using h
    simp [takeDigitsP, hc]

/-- A greedy digit read consumes exactly a digit block followed by a
non-digit boundary. -/
theorem takeDigitsP_digits (ds : List Char) (hds : ∀ c ∈ ds, isDigitCh c = true)
    (rest : List Char) (h : nonDigitStart rest = true) :
    takeDigitsP (ds ++ rest) = (ds, rest) := by
  induction ds with
  | nil => simpa using takeDigitsP_stop rest h
  | cons c t ih =>
    have hc : isDigitCh c = true := hds c (by simp)
    have ht : ∀ x ∈ t, isDigitCh x = true := fun x hx => hds x (by simp [hx])
    simp [takeDigitsP, hc, ih ht]

/-- `readNum` inverts `intChars` at any non-digit boundary. -/
theorem readNum_intChars (i : Int) (rest : List Char) (h : nonDigitStart rest = true) :
    readNum (intChars i ++ rest) = some (i, rest) := by
  by_cases hneg : i < 0
  · have hne : ((-i).toNat : Int) = -i := Int.toNat_of_nonneg (by omega)
    rw [intChars, if_pos hneg]
    simp only [List.cons_append, readNum, if_pos rfl,
      takeDigitsP_digits (natChars (-i).toNat) (natChars_all_digits _) rest h]
    simp [natChars_ne_nil, List.isEmpty_eq_true, digitsVal_natChars, hne]
  · rw [intChars, if_neg hneg]
    rcases hE : natChars i.toNat with _ | ⟨c, t⟩
    · exact absurd hE (natChars_ne_nil _)
    · have hc : isDigitCh c = true := by
        have := natChars_all_digits i.toNat c (by rw [hE]; simp)
        exact this
      have hcm : c ≠ '-' := isDigit_ne hc (by decide)
      have htd : takeDigitsP ((c :: t) ++ rest) = (c :: t, rest) := by
        rw [← hE]
        exact takeDigitsP_digits _ (natChars_all_digits _) rest h
      simp only [List.cons_append, readNum, if_neg hcm] at *
      rw [htd]
      have hval : digitsVal (c :: t) = i.toNat := by
        rw [← hE, digitsVal_natChars]
      simp [hval, Int.toNat_of_nonneg (by omega : (0:Int) ≤ i)]



/-- Hex rendering decodes to its value. -/
theorem hexToNat_hexLower : ∀ d, d < 16 → hexToNat (hexLower d) = some d := by
  decide

/-- Reading one escaped character prepends it to whatever the rest of
the string body reads. -/
theorem readStrBody_escChar (c : Char) (tail : List Char) :
    readStrBody (escapeChar c ++ tail)
      = match readStrBody tail with
        | some (cs, r) => some (c :: cs, r)
        | none => none := by
  by_cases h1 : c = '"'
  · subst h1
    rw [show escapeChar '"' = ['\\', '"'] from by decide]
    rw [readStrBody.eq_def]
    simp [unescapeChar]
  · by_cases h2 : c = '\\'
    · subst h2
      rw [show escapeChar '\\' = ['\\', '\\'] from by decide]
      rw [readStrBody.eq_def]
      simp [unescapeChar]
    · by_cases h3 : c = '\x08'
      · subst h3
        rw [show escapeChar '\x08' = ['\\', 'b'] from by decide]
        rw [readStrBody.eq_def]
        simp [unescapeChar]
      · by_cases h4 : c = '\x09'
        · subst h4
          rw [show escapeChar '\x09' = ['\\', 't'] from by decide]
          rw [readStrBody.eq_def]
          simp [unescapeChar]
        · by_cases h5 : c = '\x0a'
          · subst h5
            rw [show escapeChar '\x0a' = ['\\', 'n'] from by decide]
            rw [readStrBody.eq_def]
            simp [unescapeChar]
          · by_cases h6 : c = '\x0c'
            · subst h6
              rw [show escapeChar '\x0c' = ['\\', 'f'] from by decide]
              rw [readStrBody.eq_def]
              simp [unescapeChar]
            · by_cases h7 : c = '\x0d'
              · subst h7
                rw [show escapeChar '\x0d' = ['\\', 'r'] from by decide]
                rw [readStrBody.eq_def]
                simp [unescapeChar]
              · by_cases h8 : c.toNat < 32
                · have hdiv : c.toNat / 16 < 16 := by omega
                  have hmod : c.toNat % 16 < 16 := Nat.mod_lt _ (by omega)
                  have he : escapeChar c = ['\\', 'u', '0', '0',
                      hexLower (c.toNat / 16), hexLower (c.toNat % 16)] := by
                    simp only [escapeChar, if_neg h1, if_neg h2, if_neg h3, if_neg h4,
                      if_neg h5, if_neg h6, if_neg h7, if_pos h8]
                  rw [he]
                  rw [readStrBody.eq_def]
                  simp only [List.cons_append, hexToNat_hexLower _ hdiv,
                    hexToNat_hexLower _ hmod,
                    show hexToNat '0' = some 0 from by decide]
                  have harith : c.toNat / 16 * 16 + c.toNat % 16 = c.toNat := by omega
                  simp [harith, Char.ofNat_toNat]
                · have he : escapeChar c = [c] := by
                    simp only [escapeChar, if_neg h1, if_neg h2, if_neg h3, if_neg h4,
                      if_neg h5, if_neg h6, if_neg h7, if_neg h8]
                  rw [he]
                  rw [readStrBody.eq_def]
                  simp [h1, h2]

/-- Reading an escaped string body stops exactly at the closing quote. -/
theorem readStrBody_closes (s : List Char) (rest : List Char) :
    readStrBody ((s.map escapeChar).flatten ++ '"' :: rest) = some (s, rest) := by
  induction s with
  | nil =>
    simp only [List.map_nil, List.flatten_nil, List.nil_append]
    rw [readStrBody.eq_def]
    simp
  | cons c t ih =>
    have h := readStrBody_escChar c ((t.map escapeChar).flatten ++ '"' :: rest)
    simp only [List.map_cons, List.flatten_cons, List.append_assoc]
    rw [h, ih]



/-- `String.mk` inverts `String.toList`. -/
theorem stringMk_toList (s : String) : String.mk s.toList = s := rfl

/-- A non-empty element rendering is the head's rendering plus its tail. -/
theorem charsElems_eq (e : Json) (es : List Json) :
    Json.charsElems (e :: es) = Json.chars e ++ elemsTail es := by
  cases es with
  | nil => simp [Json.charsElems, elemsTail]
  | cons x xs => simp [Json.charsElems, elemsTail]

/-- A non-empty member rendering decomposed the same way. -/
theorem charsMembers_eq (k : String) (v : Json) (ms : List (String × Json)) :
    Json.charsMembers ((k, v) :: ms)
      = quoteChars k ++ ':' :: (Json.chars v ++ membersTail ms) := by
  cases ms with
  | nil => simp [Json.charsMembers, membersTail]
  | cons m ms2 => simp [Json.charsMembers, membersTail]

/-- Every rendered value starts with a character that is not a closing
delimiter (so the parser's array/object branches never mistake a value
for an empty collection). -/
theorem chars_cons (j : Json) :
    ∃ c t, Json.chars j = c :: t ∧ c ≠ ']' ∧ c ≠ '\x7d' := by
  cases j with
  | null => exact ⟨'n', ['u', 'l', 'l'], by simp [Json.chars], by decide, by decide⟩
  | bool b =>
    cases b with
    | true => exact ⟨'t', ['r', 'u', 'e'], by simp [Json.chars], by decide, by decide⟩
    | false => exact ⟨'f', ['a', 'l', 's', 'e'], by simp [Json.chars], by decide, by decide⟩
  | num i =>
    by_cases hneg : i < 0
    · exact ⟨'-', natChars (-i).toNat, by simp [Json.chars, intChars, hneg],
        by decide, by decide⟩
    · rcases hE : natChars i.toNat with _ | ⟨c, t⟩
      · exact absurd hE (natChars_ne_nil _)
      · have hc : isDigitCh c = true := natChars_all_digits i.toNat c (by rw [hE]; simp)
        exact ⟨c, t, by simp [Json.chars, intChars, hneg, hE],
          isDigit_ne hc (by decide), isDigit_ne hc (by decide)⟩
  | str s =>
    exact ⟨'"', (s.toList.map escapeChar).flatten ++ ['"'],
      by simp [Json.chars, quoteChars], by decide, by decide⟩
  | arr es =>
    exact ⟨'[', Json.charsElems es ++ [']'], by simp [Json.chars], by decide, by decide⟩
  | obj ms =>
    exact ⟨'\x7b', Json.charsMembers ms ++ ['\x7d'], by simp [Json.chars],
      by decide, by decide⟩

/-- Rendered values are non-empty. -/
theorem chars_len_pos (j : Json) : 1 ≤ (Json.chars j).length := by
  rcases chars_cons j with ⟨c, t, hct, -, -⟩
  rw [hct]
  simp

/-- A rendered string literal has at least its two quotes. -/
theorem quoteChars_len (s : String) :
    (quoteChars s).length = (s.toList.map escapeChar).flatten.length + 2 := by
  simp [quoteChars]



/-- Length of an array rendering in terms of its element block. -/
theorem arr_chars_len (es : List Json) :
    (Json.chars (.arr es)).length = (Json.charsElems es).length + 2 := by
  simp [Json.chars]

/-- Length of an object rendering in terms of its member block. -/
theorem obj_chars_len (ms : List (String × Json)) :
    (Json.chars (.obj ms)).length = (Json.charsMembers ms).length + 2 := by
  simp [Json.chars]

/-- A singleton element block is the element's rendering. -/
theorem elems_single (e : Json) : Json.charsElems [e] = Json.chars e := by
  simp [Json.charsElems]

/-- Length of a longer element block. -/
theorem elems_cons_len (e x : Json) (xs : List Json) :
    (Json.charsElems (e :: x :: xs)).length
      = (Json.chars e).length + 1 + (Json.charsElems (x :: xs)).length := by
  rw [charsElems_eq e (x :: xs)]
  rw [show elemsTail (x :: xs) = ',' :: Json.charsElems (x :: xs) from rfl]
  simp
  omega

/-- Splitting a longer element block before its first comma. -/
theorem elems_cons_split (e x : Json) (xs : List Json) (rest : List Char) :
    Json.charsElems (e :: x :: xs) ++ ']' :: rest
      = Json.chars e ++ (',' :: (Json.charsElems (x :: xs) ++ ']' :: rest)) := by
  rw [charsElems_eq e (x :: xs)]
  rw [show elemsTail (x :: xs) = ',' :: Json.charsElems (x :: xs) from rfl]
  simp [List.append_assoc]

/-- Splitting a non-empty array rendering after the opening bracket. -/
theorem arr_cons_split (e : Json) (es : List Json) (rest : List Char) :
    Json.chars (.arr (e :: es)) ++ rest
      = '[' :: (Json.charsElems (e :: es) ++ ']' :: rest) := by
  simp [Json.chars, List.append_assoc]

/-- Splitting a non-empty object rendering after the opening brace. -/
theorem obj_cons_split (kv : String × Json) (ms : List (String × Json))
    (rest : List Char) :
    Json.chars (.obj (kv :: ms)) ++ rest
      = '\x7b' :: (Json.charsMembers (kv :: ms) ++ '\x7d' :: rest) := by
  simp [Json.chars, List.append_assoc]

/-- A member block followed by the closing brace, split at its key. -/
theorem members_key_split (k : String) (v : Json) (ms : List (String × Json))
    (rest : List Char) :
    Json.charsMembers ((k, v) :: ms) ++ '\x7d' :: rest
      = '"' :: ((k.toList.map escapeChar).flatten
          ++ '"' :: (':' :: (Json.chars v ++ (membersTail ms ++ '\x7d' :: rest)))) := by
  simp [charsMembers_eq, quoteChars, List.append_assoc]

/-- Length of a singleton member block. -/
theorem members_single_len (k : String) (v : Json) :
    (Json.charsMembers [(k, v)]).length
      = (k.toList.map escapeChar).flatten.length + 3 + (Json.chars v).length := by
  simp [charsMembers_eq, membersTail, quoteChars]
  omega

/-- Length of a longer member block. -/
theorem members_cons_len (k : String) (v : Json) (m2 : String × Json)
    (ms2 : List (String × Json)) :
    (Json.charsMembers ((k, v) :: m2 :: ms2)).length
      = (k.toList.map escapeChar).flatten.length + 4 + (Json.chars v).length
        + (Json.charsMembers (m2 :: ms2)).length := by
  simp [charsMembers_eq (k := k), membersTail, quoteChars]
  omega

/-- The element block of a non-empty array starts with the head's first
character, and reassembles to the block itself. -/
theorem elems_head_split (e : Json) (es : List Json) (c : Char) (t : List Char)
    (hct : Json.chars e = c :: t) (rest : List Char) :
    Json.charsElems (e :: es) ++ ']' :: rest
      = c :: (t ++ (elemsTail es ++ ']' :: rest)) := by
  simp [charsElems_eq, hct, List.append_assoc]

mutual
/-- Parsing a rendered value at any non-digit boundary recovers it,
given fuel above the rendering's length. -/
theorem rtVal : ∀ (j : Json) (fuel : Nat) (rest : List Char),
    (Json.chars j).length < fuel → nonDigitStart rest = true →
    parseVal fuel (Json.chars j ++ rest) = some (j, rest)
  | _, 0, _, hf, _ => absurd hf (by omega)
  | .null, fuel + 1, rest, hf, _ => by
    simp [Json.chars, parseVal]
  | .bool true, fuel + 1, rest, hf, _ => by
    simp [Json.chars, parseVal]
  | .bool false, fuel + 1, rest, hf, _ => by
    simp [Json.chars, parseVal]
  | .num i, fuel + 1, rest, hf, hr => by
    have hn := readNum_intChars i rest hr
    by_cases hneg : i < 0
    · have hE : Json.chars (.num i) = '-' :: natChars (-i).toNat := by
        simp [Json.chars, intChars, hneg]
      simp only [intChars, if_pos hneg, List.cons_append] at hn
      rw [hE]
      simp only [List.cons_append]
      simp [parseVal, hn]
    · rcases hC : natChars i.toNat with _ | ⟨c, t⟩
      · exact absurd hC (natChars_ne_nil _)
      · have hc : isDigitCh c = true := natChars_all_digits i.toNat c (by rw [hC]; simp)
        have hE : Json.chars (.num i) = c :: t := by
          simp [Json.chars, intChars, hneg, hC]
        simp only [intChars, if_neg hneg, hC, List.cons_append] at hn
        rw [hE]
        simp only [List.cons_append]
        simp [parseVal, hn, isDigit_ne hc (by decide : isDigitCh 'n' = false),
          isDigit_ne hc (by decide : isDigitCh 't' = false),
          isDigit_ne hc (by decide : isDigitCh 'f' = false),
          isDigit_ne hc (by decide : isDigitCh '"' = false),
          isDigit_ne hc (by decide : isDigitCh '[' = false),
          isDigit_ne hc (by decide : isDigitCh '\x7b' = false)]
  | .str s, fuel + 1, rest, hf, _ => by
    have hq : Json.chars (.str s) ++ rest
        = '"' :: ((s.toList.map escapeChar).flatten ++ '"' :: rest) := by
      simp [Json.chars, quoteChars]
    rw [hq]
    simp [parseVal, readStrBody_closes, stringMk_toList]
  | .arr [], fuel + 1, rest, hf, _ => by
    simp [Json.chars, Json.charsElems, parseVal]
  | .arr (e :: es), fuel + 1, rest, hf, _ => by
    rcases chars_cons e with ⟨c, t, hct, hc1, -⟩
    have hlen : (Json.charsElems (e :: es)).length + 1 < fuel := by
      have := arr_chars_len (e :: es)
      omega
    have he := rtElems e es fuel rest hlen
    rw [arr_cons_split, elems_head_split e es c t hct rest]
    simp only [parseVal]
    simp [hc1]
    rw [← elems_head_split e es c t hct rest, he]
  | .obj [], fuel + 1, rest, hf, _ => by
    simp [Json.chars, Json.charsMembers, parseVal]
  | .obj ((k, v) :: ms), fuel + 1, rest, hf, _ => by
    have hlen : (Json.charsMembers ((k, v) :: ms)).length + 1 < fuel := by
      have := obj_chars_len ((k, v) :: ms)
      omega
    have hm := rtMembers (k, v) ms fuel rest hlen
    rw [obj_cons_split, members_key_split]
    rw [members_key_split] at hm
    simp only [parseVal]
    simp only [show (('\x7b' : Char) = 'n') = False from by simp,
      show (('\x7b' : Char) = 't') = False from by simp,
      show (('\x7b' : Char) = 'f') = False from by simp,
      show (('\x7b' : Char) = '"') = False from by simp,
      show (('\x7b' : Char) = '[') = False from by simp,
      show (('\x7b' : Char) = '\x7b') = True from by simp,
      show (('"' : Char) = '\x7d') = False from by simp,
      if_false, if_true]
    rw [hm]
  termination_by j _ _ _ _ => sizeOf j

/-- Parsing rendered elements up to the closing bracket recovers them. -/
theorem rtElems : ∀ (e : Json) (es : List Json) (fuel : Nat) (rest : List Char),
    (Json.charsElems (e :: es)).length + 1 < fuel →
    parseElems fuel (Json.charsElems (e :: es) ++ ']' :: rest) = some (e :: es, rest)
  | _, _, 0, _, hf => absurd hf (by omega)
  | e, [], fuel + 1, rest, hf => by
    have hlen : (Json.chars e).length < fuel := by
      have hql : (Json.charsElems [e]).length = (Json.chars e).length := by
        rw [elems_single]
      omega
    have hv := rtVal e fuel (']' :: rest) hlen rfl
    rw [show Json.charsElems [e] ++ ']' :: rest = Json.chars e ++ ']' :: rest from by
      rw [elems_single]]
    simp only [parseElems]
    rw [hv]
    simp
  | e, x :: xs, fuel + 1, rest, hf => by
    have hlx : 1 ≤ (Json.chars e).length := chars_len_pos e
    have hsum := elems_cons_len e x xs
    have hlen1 : (Json.chars e).length < fuel := by omega
    have hlen2 : (Json.charsElems (x :: xs)).length + 1 < fuel := by omega
    have hv := rtVal e fuel (',' :: (Json.charsElems (x :: xs) ++ ']' :: rest))
      hlen1 rfl
    have hx := rtElems x xs fuel rest hlen2
    rw [elems_cons_split]
    simp only [parseElems]
    rw [hv]
    simp [hx]
  termination_by e es _ _ _ => 1 + sizeOf e + sizeOf es

/-- Parsing rendered members up to the closing brace recovers them. -/
theorem rtMembers : ∀ (kv : String × Json) (ms : List (String × Json)) (fuel : Nat)
    (rest : List Char),
    (Json.charsMembers (kv :: ms)).length + 1 < fuel →
    parseMembers fuel (Json.charsMembers (kv :: ms) ++ '\x7d' :: rest)
      = some (kv :: ms, rest)
  | _, _, 0, _, hf => absurd hf (by omega)
  | (k, v), [], fuel + 1, rest, hf => by
    have hsum := members_single_len k v
    have hlen : (Json.chars v).length < fuel := by omega
    have hnd : nonDigitStart (membersTail ([] : List (String × Json)) ++ '\x7d' :: rest)
        = true := rfl
    have hv := rtVal v fuel (membersTail ([] : List (String × Json)) ++ '\x7d' :: rest)
      hlen hnd
    rw [members_key_split]
    simp only [parseMembers]
    rw [readStrBody_closes]
    simp only [show (('"' : Char) = '"') = True from by simp,
      show ((':' : Char) = ':') = True from by simp, if_true]
    rw [hv]
    simp [membersTail, stringMk_toList]
  | (k, v), m2 :: ms2, fuel + 1, rest, hf => by
    have hsum := members_cons_len k v m2 ms2
    have hvp : 1 ≤ (Json.chars v).length := chars_len_pos v
    have hlen1 : (Json.chars v).length < fuel := by omega
    have hlen2 : (Json.charsMembers (m2 :: ms2)).length + 1 < fuel := by omega
    have hnd : nonDigitStart (membersTail (m2 :: ms2) ++ '\x7d' :: rest) = true := rfl
    have hv := rtVal v fuel (membersTail (m2 :: ms2) ++ '\x7d' :: rest) hlen1 hnd
    have hm := rtMembers m2 ms2 fuel rest hlen2
    rw [members_key_split]
    simp only [parseMembers]
    rw [readStrBody_closes]
    simp only [show (('"' : Char) = '"') = True from by simp,
      show ((':' : Char) = ':') = True from by simp, if_true]
    rw [hv]
    simp [membersTail, hm, stringMk_toList]
  termination_by kv ms _ _ _ => 1 + sizeOf kv + sizeOf ms
end



/-- The full codec round trip: `JSON.parse` inverts `JSON.stringify`. -/
theorem encode_parse (j : Json) : Json.parse (Json.encode j) = some j := by
  have hv := rtVal j (j.chars.length + 1) [] (by omega) rfl
  rw [List.append_nil] at hv
  have ht : (String.mk j.chars).toList = j.chars := rfl
  unfold Json.parse Json.encode
  rw [ht, hv]

/-- **C8.** `createSuccessResponse` returns a non-error envelope with
exactly one text content entry holding the data itself when it is a
string and its JSON encoding otherwise; JSON-parsing that encoding
yields the original value back. -/
theorem c8_wrap_success_round_trip (x : Json) :
    (createSuccessResponse x).isError = false
    ∧ (createSuccessResponse x).errorType = none
    ∧ (createSuccessResponse x).content
        = [{ type := "text",
             text := match x with
                     | .str s => s
                     | d => Json.encode d }]
    ∧ Json.parse (Json.encode x) = some x :=
  ⟨rfl, rfl, rfl, encode_parse x⟩

end FirebaseMcp
